import Mathlib

/-!
Verification of the text-to-SQL orchestration core (`src/text2sql_system.py`).

Text is modelled as `List Char`; Python string primitives (`split`, `replace`,
`strip`, whitespace `split()`, substring `in`) are given executable models
below, each annotated with the Python construct it embeds.  The orchestration
loop `Text2SQLSystem.query` is embedded as a state-transition function over an
environment of scripted capability outcomes (generator / executor / diagnoser
/ fixer), since the Python code treats those as opaque calls that either
return a value or raise.
-/

/-- Program text, modelled as a list of characters. -/
abbrev Text := List Char

/-- Coerce a Lean string literal to `Text`. -/
def strT (s : String) : Text := s.data

/-- The whitespace test used by Python `str.strip()` / `str.split()` for the
character set that occurs in this program (space, tab, newline, carriage
return). -/
def isWs (c : Char) : Bool := c == ' ' || c == '\t' || c == '\n' || c == '\r'

/-- `'\x60'` is the backtick character (written via its code to keep source
clean). -/
def bq : Char := '\x60'

/-- The markdown fence delimiter `'\x60\x60\x60'` used in
`text.split('...')` at src/text2sql_system.py:24. -/
def fenceT : Text := strT "\x60\x60\x60"

/-- The literal `'sql'` removed at src/text2sql_system.py:27 and 32. -/
def sqlT : Text := strT "sql"

/-- `completion_markers` at src/text2sql_system.py:35 (order matters). -/
def completionMarkers : List Text :=
  [strT "### Completed:", strT "### End", strT "# Completed",
   strT "Completed:", strT "###", strT "#"]

/-- The out-of-scope sentinel `'NOT ASKING FOR SQL'`
(src/text2sql_system.py:222). -/
def sentinelT : Text := strT "NOT ASKING FOR SQL"

/-- `pat` occurs as a prefix: Python `s.startswith(pat)`, used to phrase the
semantics of scans below. -/
def IsPre (pat s : Text) : Prop := ∃ v, s = pat ++ v

/-- `pat` occurs as a contiguous substring: Python `pat in s`. -/
def IsSub (pat s : Text) : Prop := ∃ u v, s = u ++ pat ++ v

/-- Python `pat in s` as an executable test (left-to-right scan for a
prefix match at each position). -/
def containsT (pat : Text) : Text → Bool
  | [] => pat.isEmpty
  | c :: rest => pat.isPrefixOf (c :: rest) || containsT pat rest

/-- Attach `a` to the front of the first chunk of a split result. -/
def consHead (a : Text) : List Text → List Text
  | [] => [a]
  | t :: ts => (a ++ t) :: ts

/-- Python `s.split(sep)` for non-empty `sep`: scan left to right; each match
of `sep` ends the current chunk and the scan resumes after the match.  The
`fuel` argument only funds the structural recursion; every call below passes
`fuel = s.length`, which is enough because each step consumes at least one
character. -/
def splitOnFuel (sep : Text) : Nat → Text → List Text
  | _, [] => [[]]
  | 0, s => [s]
  | fuel + 1, c :: rest =>
    if sep ≠ [] ∧ sep.isPrefixOf (c :: rest) then
      [] :: splitOnFuel sep fuel (List.drop sep.length (c :: rest))
    else
      consHead [c] (splitOnFuel sep fuel rest)

/-- Python `s.split(sep)` (src/text2sql_system.py:24 uses it with the fence
delimiter). -/
def pySplitOn (sep s : Text) : List Text := splitOnFuel sep s.length s

/-- Python `sep.join(parts)`. -/
def joinWith (sep : Text) : List Text → Text
  | [] => []
  | [w] => w
  | w :: p :: ps => w ++ sep ++ joinWith sep (p :: ps)

/-- Python `s.replace(pat, repl)` (replace ALL left-to-right non-overlapping
occurrences, scanning the original string): equals
`repl.join(s.split(pat))`.  Used at src/text2sql_system.py:27. -/
def pyReplace (pat repl s : Text) : Text := joinWith repl (pySplitOn pat s)

/-- Python `s.replace(pat, repl, 1)`: replace only the first occurrence
(src/text2sql_system.py:32). -/
def pyReplaceFirst (pat repl : Text) : Text → Text
  | [] => []
  | c :: rest =>
    if pat ≠ [] ∧ pat.isPrefixOf (c :: rest) then
      repl ++ List.drop (pat.length - 1) rest
    else
      c :: pyReplaceFirst pat repl rest

/-- Python `s.split(marker)[0]`: the text before the first occurrence of
`marker` (the whole text if `marker` does not occur).  Used at
src/text2sql_system.py:38. -/
def beforeFirst (pat : Text) : Text → Text
  | [] => []
  | c :: rest =>
    if pat ≠ [] ∧ pat.isPrefixOf (c :: rest) then []
    else c :: beforeFirst pat rest

/-- Python `s.strip()`: drop leading and trailing whitespace. -/
def pyStrip (s : Text) : Text :=
  ((s.dropWhile isWs).reverse.dropWhile isWs).reverse

/-- Python `s.split()` (no argument): split on whitespace runs, discarding
empty chunks.  Used at src/text2sql_system.py:41. -/
def pySplitWs : Text → List Text
  | [] => []
  | [c] => if isWs c then [] else [[c]]
  | c :: d :: rest =>
    if isWs c then pySplitWs (d :: rest)
    else if isWs d then [c] :: pySplitWs rest
    else
      match pySplitWs (d :: rest) with
      | [] => [[c]]
      | w :: tl => (c :: w) :: tl

/-- Python `' '.join(s.split())` (src/text2sql_system.py:41). -/
def normalizeWs (s : Text) : Text := joinWith [' '] (pySplitWs s)

/-- Lines 24–29 of src/text2sql_system.py:

    splits = text.split('...')                -- fence delimiter
    if len(splits) >= 3:
        sql_content = splits[1].replace('sql', '').strip()
    else:
        sql_content = text.strip()
-/
def extractFenced (text : Text) : Text :=
  let splits := pySplitOn fenceT text
  if 3 ≤ splits.length then pyStrip (pyReplace sqlT [] (splits.getD 1 []))
  else pyStrip text

/-- Lines 35–38 of src/text2sql_system.py:

    for marker in completion_markers:
        if marker in sql_content:
            sql_content = sql_content.split(marker)[0].strip()
-/
def stripMarkers (s : Text) : Text :=
  completionMarkers.foldl
    (fun cur mk => if containsT mk cur then pyStrip (beforeFirst mk cur) else cur) s

/-- `clean_llm_response` (src/text2sql_system.py:13-43): fence extraction
with replace-all of `'sql'`, then `replace('sql', '', 1)`, then completion
marker truncation, then whitespace collapsing. -/
def clean_llm_response (text : Text) : Text :=
  normalizeWs (stripMarkers (pyReplaceFirst sqlT [] (extractFenced text)))

/-!
## The orchestration loop (`Text2SQLSystem.query`, src/text2sql_system.py:141-241)

A pandas dataframe is modelled by its rows; `df.empty` is `rows = []`.
A capability call either returns a value (`some`) or raises (`none`); the
environment scripts the outcome of the `n`-th call to each capability.  An
agent response is modelled by its `generated_sql` text, which is the only
field the loop reads.
-/

/-- A result dataframe, modelled as its list of rows. -/
abbrev DF := List (List Text)

/-- The `return_dict` built at src/text2sql_system.py:158-163. -/
structure RetDict where
  response : List Text
  sql : List Text
  error_reason : List Text
  df : List DF
deriving DecidableEq

/-- Scripted outcomes of the four capabilities: initial generation
(src/text2sql_system.py:170), execution (:194/:197), diagnosis (:215),
fix (:228).  `none` models the call raising an exception. -/
structure Env where
  gen : Option Text
  exec : Nat → Option DF
  diag : Nat → Option Text
  fix : Nat → Option Text

/-- Loop state: the accumulating `return_dict`, the current response text,
`retry_count`, and how many times each capability has been called. -/
structure LoopState where
  ret : RetDict
  response : Text
  retry_count : Nat
  nExec : Nat
  nDiag : Nat
  nFix : Nat
deriving DecidableEq

/-- The empty `return_dict` (src/text2sql_system.py:158-163). -/
def emptyRet : RetDict := ⟨[], [], [], []⟩

/-- The inner error-handling block, src/text2sql_system.py:212-237: call the
diagnoser; if it raises, exit the loop; if its text contains the sentinel,
exit the loop recording nothing; otherwise append the diagnosis to
`error_reason`, call the fixer (appending its response on success), and exit
the loop if the fixer raises.  Exits set `retry_count = max_retry + 1`
exactly as lines 233/237 do. -/
def diagnoseFix (env : Env) (m : Nat) (st : LoopState) : LoopState :=
  match env.diag st.nDiag with
  | none => { st with nDiag := st.nDiag + 1, retry_count := m + 1 }
  | some txt =>
    if containsT sentinelT txt then
      { st with nDiag := st.nDiag + 1, retry_count := m + 1 }
    else
      let ret2 := { st.ret with error_reason := st.ret.error_reason ++ [txt] }
      match env.fix st.nFix with
      | none =>
        { st with ret := ret2, nDiag := st.nDiag + 1, nFix := st.nFix + 1,
                  retry_count := m + 1 }
      | some r =>
        { st with ret := { ret2 with response := ret2.response ++ [r] },
                  response := r, nDiag := st.nDiag + 1, nFix := st.nFix + 1 }

/-- One iteration of the `while` body, src/text2sql_system.py:182-239: clean
the current response, append the SQL, execute it; on a returned dataframeic
append it to `df`; an empty dataframe raises (line 202) and joins the
executor-raised path into diagnosis; a non-empty dataframe sets
`retry_count = max_retry + 1` (line 206).  Line 239 (`retry_count += 1`) is
the final increment. -/
def iteration (env : Env) (m : Nat) (st : LoopState) : LoopState :=
  let sql := clean_llm_response st.response
  let ret1 := { st.ret with sql := st.ret.sql ++ [sql] }
  let st1 :=
    match env.exec st.nExec with
    | some d =>
      let ret2 := { ret1 with df := ret1.df ++ [d] }
      if d.isEmpty then
        diagnoseFix env m { st with ret := ret2, nExec := st.nExec + 1 }
      else
        { st with ret := ret2, nExec := st.nExec + 1, retry_count := m + 1 }
    | none => diagnoseFix env m { st with ret := ret1, nExec := st.nExec + 1 }
  { st1 with retry_count := st1.retry_count + 1 }

/-- The `while retry_count < self.max_retry` loop
(src/text2sql_system.py:181).  `fuel` funds the recursion; since every
iteration increases `retry_count` by at least one
(`iteration_retry_lt` below) and the loop only continues while
`retry_count < m`, fuel `m` is exact (`loopGo_fuel_stable` below certifies
that more fuel changes nothing). -/
def loopGo (env : Env) (m : Nat) : Nat → LoopState → LoopState
  | 0, st => st
  | fuel + 1, st =>
    if st.retry_count < m then loopGo env m fuel (iteration env m st) else st

/-- The state reached by `Text2SQLSystem.query`
(src/text2sql_system.py:141-241): on initial-generation failure return the
empty dictionary at once (lines 173-175); otherwise append the response and
run the retry loop from `retry_count = 0`. -/
def queryState (env : Env) (m : Nat) : LoopState :=
  match env.gen with
  | none => ⟨emptyRet, [], 0, 0, 0, 0⟩
  | some r =>
    loopGo env m m
      { ret := { emptyRet with response := [r] }, response := r,
        retry_count := 0, nExec := 0, nDiag := 0, nFix := 0 }

/-- The dictionary returned by `Text2SQLSystem.query`. -/
def query (env : Env) (m : Nat) : RetDict := (queryState env m).ret

/-- `Text2SQLSystem.get_last_successful_result`
(src/text2sql_system.py:243-255): if both the `sql` and `df` lists are
non-empty (Python truthiness) return their last elements, else
`(None, None)`. -/
def get_last_successful_result (rd : RetDict) : Option Text × Option DF :=
  if rd.sql ≠ [] ∧ rd.df ≠ [] then (rd.sql.getLast?, rd.df.getLast?)
  else (none, none)

/-- The exhaustion scenario of the spec: every execution raises, the
diagnoser always returns non-sentinel text, the fixer always succeeds. -/
def Scripted (env : Env) : Prop :=
  (∀ n, env.exec n = none) ∧
  (∀ n, ∃ t, env.diag n = some t ∧ containsT sentinelT t = false) ∧
  (∀ n, ∃ r, env.fix n = some r)

/-! ## Substring facts -/

theorem isPre_iff (pat : Text) : ∀ s, pat.isPrefixOf s = true ↔ IsPre pat s := by
  induction pat with
  | nil =>
    intro s
    simp [List.isPrefixOf, IsPre]
  | cons a p ih =>
    intro s
    cases s with
    | nil =>
      simp [List.isPrefixOf, IsPre]
    | cons b s' =>
      simp only [List.isPrefixOf, Bool.and_eq_true, beq_iff_eq, ih s', IsPre]
      constructor
      · rintro ⟨rfl, v, rfl⟩
        exact ⟨v, rfl⟩
      · rintro ⟨v, h⟩
        simp only [List.cons_append, List.cons.injEq] at h
        exact ⟨h.1.symm, v, h.2⟩

theorem isSub_nil_iff (pat : Text) : IsSub pat [] ↔ pat = [] := by
  constructor
  · rintro ⟨u, v, h⟩
    rcases List.append_eq_nil.mp h.symm with ⟨h1, h2⟩
    exact (List.append_eq_nil.mp h1).2
  · rintro rfl
    exact ⟨[], [], rfl⟩

theorem isSub_cons_of {pat s : Text} (c : Char) (h : IsSub pat s) :
    IsSub pat (c :: s) := by
  obtain ⟨u, v, rfl⟩ := h
  exact ⟨c :: u, v, rfl⟩

theorem isSub_of_isPre {pat s : Text} (h : IsPre pat s) : IsSub pat s := by
  obtain ⟨v, rfl⟩ := h
  exact ⟨[], v, rfl⟩

theorem isSub_cons_elim {pat s : Text} {c : Char} (h : IsSub pat (c :: s)) :
    IsPre pat (c :: s) ∨ IsSub pat s := by
  obtain ⟨u, v, hu⟩ := h
  cases u with
  | nil => exact Or.inl ⟨v, by simpa using hu⟩
  | cons d u' =>
    simp only [List.cons_append, List.cons.injEq] at hu
    exact Or.inr ⟨u', v, hu.2⟩

theorem containsT_iff (pat : Text) : ∀ s, containsT pat s = true ↔ IsSub pat s := by
  intro s
  induction s with
  | nil =>
    simp [containsT, isSub_nil_iff, List.isEmpty_iff]
  | cons c rest ih =>
    simp only [containsT, Bool.or_eq_true, isPre_iff, ih]
    constructor
    · rintro (h | h)
      · exact isSub_of_isPre h
      · exact isSub_cons_of c h
    · exact isSub_cons_elim

theorem containsT_eq_false_iff (pat s : Text) :
    containsT pat s = false ↔ ¬ IsSub pat s := by
  rw [← containsT_iff]
  constructor
  · intro h hc
    rw [h] at hc
    exact Bool.false_ne_true hc
  · intro h
    cases hb : containsT pat s with
    | false => rfl
    | true => exact absurd hb h

theorem isSub_trans {p q r : Text} (h1 : IsSub p q) (h2 : IsSub q r) : IsSub p r := by
  obtain ⟨u, v, rfl⟩ := h1
  obtain ⟨x, y, rfl⟩ := h2
  exact ⟨x ++ u, v ++ y, by simp⟩

theorem mem_of_isSub {pat s : Text} {c : Char} (h : IsSub pat s) (hc : c ∈ pat) :
    c ∈ s := by
  obtain ⟨u, v, rfl⟩ := h
  simp [hc]

theorem isSub_single_of_mem {s : Text} {c : Char} (h : c ∈ s) : IsSub [c] s := by
  obtain ⟨u, v, rfl⟩ := List.append_of_mem h
  exact ⟨u, v, by simp⟩

/-! ## `splitOnFuel` facts -/

theorem splitOnFuel_ne_nil (sep : Text) : ∀ fuel s, splitOnFuel sep fuel s ≠ [] := by
  intro fuel
  induction fuel with
  | zero =>
    intro s
    cases s <;> simp [splitOnFuel]
  | succ n ih =>
    intro s
    cases s with
    | nil => simp [splitOnFuel]
    | cons c rest =>
      rw [splitOnFuel]
      split
      · simp
      · cases h : splitOnFuel sep n rest with
        | nil => exact absurd h (ih rest)
        | cons t ts => simp [consHead]

theorem consHead_of_ne_nil (c : Char) {L : List Text} (h : L ≠ []) :
    ∃ t ts, L = t :: ts ∧ consHead [c] L = (c :: t) :: ts := by
  cases L with
  | nil => exact absurd rfl h
  | cons t ts => exact ⟨t, ts, rfl, rfl⟩

theorem splitOnFuel_of_not_sub (sep : Text) :
    ∀ fuel s, ¬ IsSub sep s → splitOnFuel sep fuel s = [s] := by
  intro fuel
  induction fuel with
  | zero =>
    intro s hs
    cases s <;> simp [splitOnFuel]
  | succ n ih =>
    intro s hs
    cases s with
    | nil => simp [splitOnFuel]
    | cons c rest =>
      rw [splitOnFuel]
      rw [if_neg]
      · rw [ih rest (fun h => hs (isSub_cons_of c h))]
        rfl
      · rintro ⟨-, hpre⟩
        exact hs (isSub_of_isPre ((isPre_iff sep (c :: rest)).mp hpre))

theorem isPrefixOf_append (sep r : Text) : sep.isPrefixOf (sep ++ r) = true :=
  (isPre_iff sep (sep ++ r)).mpr ⟨r, rfl⟩

theorem splitOnFuel_sep_append {sep : Text} (hsep : sep ≠ []) (fuel : Nat) (r : Text) :
    splitOnFuel sep (fuel + 1) (sep ++ r) = [] :: splitOnFuel sep fuel r := by
  cases sep with
  | nil => exact absurd rfl hsep
  | cons h s2 =>
    rw [List.cons_append, splitOnFuel, if_pos]
    · rw [← List.cons_append, List.drop_left]
    · exact ⟨hsep, by rw [← List.cons_append]; exact isPrefixOf_append _ r⟩

theorem consHead_consHead (c : Char) (a : Text) (L : List Text) :
    consHead [c] (consHead a L) = consHead (c :: a) L := by
  cases L <;> simp [consHead]

theorem splitOnFuel_nochar_append {h : Char} {sep2 : Text} :
    ∀ (a : Text), (∀ c ∈ a, c ≠ h) → ∀ (fuel : Nat) (z : Text),
    splitOnFuel (h :: sep2) (a.length + fuel) (a ++ z) =
      consHead a (splitOnFuel (h :: sep2) fuel z) := by
  intro a
  induction a with
  | nil =>
    intro _ fuel z
    rcases hL : splitOnFuel (h :: sep2) fuel z with _ | ⟨t, ts⟩
    · exact absurd hL (splitOnFuel_ne_nil _ _ _)
    · simp [consHead, hL]
  | cons c a2 ih =>
    intro ha fuel z
    have hc : c ≠ h := ha c (by simp)
    have hlen : (c :: a2).length + fuel = (a2.length + fuel) + 1 := by
      simp [Nat.add_comm, Nat.add_assoc, Nat.add_left_comm]
    rw [hlen, List.cons_append, splitOnFuel, if_neg, ih (fun x hx => ha x (by simp [hx])),
        consHead_consHead]
    rintro ⟨-, hpre⟩
    obtain ⟨v, hv⟩ := (isPre_iff _ _).mp hpre
    simp only [List.cons_append, List.cons.injEq] at hv
    exact hc hv.1

theorem pySplitOn_first_pair {a b : Text} (c : Text)
    (ha : ∀ ch ∈ a, ch ≠ bq) (hb : ∀ ch ∈ b, ch ≠ bq) :
    pySplitOn fenceT (a ++ (fenceT ++ (b ++ (fenceT ++ c)))) =
      a :: b :: splitOnFuel fenceT (c.length + 4) c := by
  have hfT : fenceT = bq :: [bq, bq] := by decide
  have hlen : (a ++ (fenceT ++ (b ++ (fenceT ++ c)))).length =
      a.length + ((b.length + (c.length + 4)) + 1 + 1) := by
    simp [fenceT, strT]
    omega
  rw [pySplitOn, hlen, hfT]
  rw [splitOnFuel_nochar_append a ha]
  rw [← hfT, splitOnFuel_sep_append (by decide)]
  have hlen2 : b.length + (c.length + 4) + 1 = b.length + (c.length + 4 + 1) := by omega
  rw [hfT, hlen2, splitOnFuel_nochar_append b hb]
  rw [← hfT, splitOnFuel_sep_append (by decide)]
  simp [consHead]

theorem pySplitOn_wrap {t : Text} (ht : ∀ ch ∈ t, ch ≠ bq) :
    pySplitOn fenceT (fenceT ++ (t ++ fenceT)) = [[], t, []] := by
  have h0 : (∀ ch ∈ ([] : Text), ch ≠ bq) := by simp
  have := pySplitOn_first_pair (a := []) (b := t) [] h0 ht
  simpa [splitOnFuel] using this

theorem pySplitOn_of_not_sub {sep s : Text} (h : ¬ IsSub sep s) :
    pySplitOn sep s = [s] :=
  splitOnFuel_of_not_sub sep s.length s h

/-! ## No-occurrence behaviour of the cleaning steps -/

theorem pyReplaceFirst_of_not_sub (pat repl : Text) :
    ∀ s, ¬ IsSub pat s → pyReplaceFirst pat repl s = s := by
  intro s
  induction s with
  | nil => intro _; rfl
  | cons c rest ih =>
    intro hs
    rw [pyReplaceFirst, if_neg, ih (fun h => hs (isSub_cons_of c h))]
    rintro ⟨-, hpre⟩
    exact hs (isSub_of_isPre ((isPre_iff pat (c :: rest)).mp hpre))

theorem pyReplace_of_not_sub {pat s : Text} (repl : Text) (h : ¬ IsSub pat s) :
    pyReplace pat repl s = s := by
  rw [pyReplace, pySplitOn_of_not_sub h]
  rfl

theorem foldl_markers_of_not_sub :
    ∀ (ms : List Text) (s : Text), (∀ mk ∈ ms, containsT mk s = false) →
    ms.foldl
      (fun cur mk => if containsT mk cur then pyStrip (beforeFirst mk cur) else cur) s
      = s := by
  intro ms
  induction ms with
  | nil => intro s _; rfl
  | cons mk ms' ih =>
    intro s hs
    rw [List.foldl_cons, if_neg, ih s (fun x hx => hs x (by simp [hx]))]
    rw [hs mk (by simp)]
    simp

theorem stripMarkers_of_not_sub {s : Text}
    (hs : ∀ mk ∈ completionMarkers, containsT mk s = false) :
    stripMarkers s = s :=
  foldl_markers_of_not_sub completionMarkers s hs

theorem mem_takeWhile_sat {p : Char → Bool} :
    ∀ {s : Text} {c : Char}, c ∈ s.takeWhile p → p c = true := by
  intro s
  induction s with
  | nil => intro c h; simp [List.takeWhile] at h
  | cons d rest ih =>
    intro c h
    rw [List.takeWhile_cons] at h
    by_cases hd : p d = true
    · rw [if_pos hd] at h
      rcases List.mem_cons.mp h with rfl | h2
      · exact hd
      · exact ih h2
    · rw [if_neg hd] at h
      simp at h

theorem pyStrip_decomp (s : Text) :
    ∃ u v, s = u ++ pyStrip s ++ v ∧
      (∀ c ∈ u, isWs c = true) ∧ (∀ c ∈ v, isWs c = true) := by
  set t := s.dropWhile isWs with ht
  have h1 : s = s.takeWhile isWs ++ t := (List.takeWhile_append_dropWhile ..).symm
  have h2 : t.reverse = t.reverse.takeWhile isWs ++ t.reverse.dropWhile isWs :=
    (List.takeWhile_append_dropWhile ..).symm
  have h3 : t = (t.reverse.dropWhile isWs).reverse ++ (t.reverse.takeWhile isWs).reverse := by
    have h4 := congrArg List.reverse h2
    rw [List.reverse_reverse, List.reverse_append] at h4
    exact h4
  refine ⟨s.takeWhile isWs, (t.reverse.takeWhile isWs).reverse, ?_, ?_, ?_⟩
  · rw [pyStrip, ← ht]
    conv_lhs => rw [h1, h3]
    simp [List.append_assoc]
  · intro c hc
    exact mem_takeWhile_sat hc
  · intro c hc
    rw [List.mem_reverse] at hc
    exact mem_takeWhile_sat hc

theorem pyStrip_isSub (s : Text) : IsSub (pyStrip s) s := by
  obtain ⟨u, v, h, -, -⟩ := pyStrip_decomp s
  exact ⟨u, v, h⟩

/-! ## Whitespace splitting facts -/

theorem splitWs_ws_cons {c : Char} (h : isWs c = true) (s : Text) :
    pySplitWs (c :: s) = pySplitWs s := by
  cases s with
  | nil => simp [pySplitWs, h]
  | cons d rest => simp [pySplitWs, h]

theorem splitWs_ws_append {u : Text} (hu : ∀ x ∈ u, isWs x = true) (s : Text) :
    pySplitWs (u ++ s) = pySplitWs s := by
  induction u with
  | nil => rfl
  | cons c u' ih =>
    rw [List.cons_append, splitWs_ws_cons (hu c (by simp)),
        ih (fun x hx => hu x (by simp [hx]))]

theorem dropWhile_head_not {p : Char → Bool} :
    ∀ {s c l}, List.dropWhile p s = c :: l → p c = false := by
  intro s
  induction s with
  | nil => intro c l h; simp [List.dropWhile] at h
  | cons d rest ih =>
    intro c l h
    rw [List.dropWhile_cons] at h
    by_cases hd : p d = true
    · rw [if_pos hd] at h
      exact ih h
    · rw [if_neg hd] at h
      cases h
      simpa using hd

theorem takeWhile_append_all {p : Char → Bool} :
    ∀ {u : Text}, (∀ c ∈ u, p c = true) → ∀ z,
      List.takeWhile p (u ++ z) = u ++ List.takeWhile p z := by
  intro u
  induction u with
  | nil => intro _ z; rfl
  | cons c u' ih =>
    intro hu z
    rw [List.cons_append, List.takeWhile_cons, if_pos (hu c (by simp)),
        ih (fun x hx => hu x (by simp [hx])) z, List.cons_append]

theorem dropWhile_append_all {p : Char → Bool} :
    ∀ {u : Text}, (∀ c ∈ u, p c = true) → ∀ z,
      List.dropWhile p (u ++ z) = List.dropWhile p z := by
  intro u
  induction u with
  | nil => intro _ z; rfl
  | cons c u' ih =>
    intro hu z
    rw [List.cons_append, List.dropWhile_cons, if_pos (hu c (by simp))]
    exact ih (fun x hx => hu x (by simp [hx])) z

theorem takeWhile_all {p : Char → Bool} {u : Text} (hu : ∀ c ∈ u, p c = true) :
    List.takeWhile p u = u := by
  have := takeWhile_append_all hu []
  simpa using this

theorem dropWhile_all {p : Char → Bool} {u : Text} (hu : ∀ c ∈ u, p c = true) :
    List.dropWhile p u = [] := by
  have := dropWhile_append_all hu []
  simpa using this

theorem takeWhile_append_pos {p : Char → Bool} :
    ∀ {u : Text} {e r}, List.dropWhile p u = e :: r → ∀ z,
      List.takeWhile p (u ++ z) = List.takeWhile p u := by
  intro u
  induction u with
  | nil => intro e r h; simp [List.dropWhile] at h
  | cons c u' ih =>
    intro e r h z
    rw [List.dropWhile_cons] at h
    by_cases hc : p c = true
    · rw [if_pos hc] at h
      rw [List.cons_append, List.takeWhile_cons, if_pos hc, ih h z,
          List.takeWhile_cons, if_pos hc]
    · rw [List.cons_append, List.takeWhile_cons, if_neg hc, List.takeWhile_cons,
          if_neg hc]

theorem dropWhile_append_pos {p : Char → Bool} :
    ∀ {u : Text} {e r}, List.dropWhile p u = e :: r → ∀ z,
      List.dropWhile p (u ++ z) = e :: (r ++ z) := by
  intro u
  induction u with
  | nil => intro e r h; simp [List.dropWhile] at h
  | cons c u' ih =>
    intro e r h z
    rw [List.dropWhile_cons] at h
    by_cases hc : p c = true
    · rw [if_pos hc] at h
      rw [List.cons_append, List.dropWhile_cons, if_pos hc]
      exact ih h z
    · rw [if_neg hc] at h
      cases h
      rw [List.cons_append, List.dropWhile_cons, if_neg hc]

theorem splitWs_all_ws {s : Text} (hs : ∀ c ∈ s, isWs c = true) :
    pySplitWs s = [] := by
  have h := splitWs_ws_append hs ([] : Text)
  simpa using h

/-- The run-at-a-time unfolding of `pySplitWs` on a non-whitespace head:
the first word is the maximal non-whitespace run and the rest is split
recursively. -/
theorem splitWs_run {c : Char} (hc : isWs c = false) :
    ∀ l, pySplitWs (c :: l) =
      List.takeWhile (fun x => !isWs x) (c :: l) ::
        pySplitWs (List.dropWhile (fun x => !isWs x) (c :: l)) := by
  intro l
  induction l generalizing c with
  | nil =>
    simp [pySplitWs, List.takeWhile_cons, List.dropWhile_cons, hc]
  | cons d rest ih =>
    by_cases hd : isWs d = true
    · rw [List.takeWhile_cons, if_pos (by simp [hc]), List.takeWhile_cons,
          if_neg (by simp [hd]), List.dropWhile_cons, if_pos (by simp [hc]),
          List.dropWhile_cons, if_neg (by simp [hd])]
      rw [show pySplitWs (c :: d :: rest) = [c] :: pySplitWs rest by
            simp [pySplitWs, hc, hd]]
      rw [splitWs_ws_cons hd rest]
    · have hd' : isWs d = false := by simpa using hd
      have hrec := ih hd'
      have hstep : pySplitWs (c :: d :: rest) =
          match pySplitWs (d :: rest) with
          | [] => [[c]]
          | w :: tl => (c :: w) :: tl := by
        simp [pySplitWs, hc, hd']
      rw [hstep, hrec]
      simp [List.takeWhile_cons, List.dropWhile_cons, hc, hd']

theorem length_dropWhile_le (p : Char → Bool) :
    ∀ l : Text, (l.dropWhile p).length ≤ l.length := by
  intro l
  induction l with
  | nil => simp [List.dropWhile]
  | cons c rest ih =>
    rw [List.dropWhile_cons]
    by_cases hc : p c = true
    · rw [if_pos hc]
      exact Nat.le_succ_of_le ih
    · rw [if_neg hc]

/-- Every chunk produced by `pySplitWs` is a non-empty whitespace-free
substring of the input. -/
theorem splitWs_words (s : Text) :
    ∀ w ∈ pySplitWs s, w ≠ [] ∧ (∀ c ∈ w, isWs c = false) ∧ IsSub w s := by
  cases hd : List.dropWhile isWs s with
  | nil =>
    have hall : ∀ c ∈ s, isWs c = true := by
      intro c hc
      by_contra hcw
      have hdecomp := (List.takeWhile_append_dropWhile (p := isWs) (l := s)).symm
      rw [hd, List.append_nil] at hdecomp
      rw [hdecomp] at hc
      exact hcw (mem_takeWhile_sat hc)
    rw [splitWs_all_ws hall]
    simp
  | cons c l =>
    have hc : isWs c = false := dropWhile_head_not hd
    have hdecomp : s = List.takeWhile isWs s ++ (c :: l) := by
      conv_lhs => rw [← List.takeWhile_append_dropWhile (p := isWs) (l := s)]
      rw [hd]
    have hpre : ∀ x ∈ List.takeWhile isWs s, isWs x = true := fun x hx =>
      mem_takeWhile_sat hx
    have hsplit : pySplitWs s =
        List.takeWhile (fun x => !isWs x) (c :: l) ::
          pySplitWs (List.dropWhile (fun x => !isWs x) (c :: l)) := by
      conv_lhs => rw [hdecomp]
      rw [splitWs_ws_append hpre, splitWs_run hc]
    intro w hw
    rw [hsplit] at hw
    rcases List.mem_cons.mp hw with rfl | hw2
    · refine ⟨?_, ?_, ?_⟩
      · rw [List.takeWhile_cons, if_pos (by simp [hc])]
        simp
      · intro x hx
        have := mem_takeWhile_sat hx
        simpa using this
      · refine ⟨List.takeWhile isWs s, List.dropWhile (fun x => !isWs x) (c :: l), ?_⟩
        conv_lhs => rw [hdecomp]
        rw [List.append_assoc, List.takeWhile_append_dropWhile]
    · have hlt : (List.dropWhile (fun x => !isWs x) (c :: l)).length < s.length := by
        rw [List.dropWhile_cons, if_pos (by simp [hc])]
        have h1 : (List.dropWhile (fun x => !isWs x) l).length ≤ l.length :=
          length_dropWhile_le _ l
        have h2 : (c :: l).length ≤ s.length := by
          conv_rhs => rw [hdecomp]
          simp
        simp at h2
        omega
      obtain ⟨hne, hfree, hsub⟩ :=
        splitWs_words (List.dropWhile (fun x => !isWs x) (c :: l)) w hw2
      refine ⟨hne, hfree, isSub_trans hsub ?_⟩
      refine ⟨List.takeWhile isWs s ++ List.takeWhile (fun x => !isWs x) (c :: l), [], ?_⟩
      conv_lhs => rw [hdecomp]
      rw [List.append_nil, List.append_assoc, List.takeWhile_append_dropWhile]
termination_by s.length
decreasing_by exact hlt

theorem takeWhile_nil_of_ws {trail : Text} (h : ∀ c ∈ trail, isWs c = true) :
    List.takeWhile (fun x => !isWs x) trail = [] := by
  cases trail with
  | nil => rfl
  | cons c rest =>
    rw [List.takeWhile_cons, if_neg]
    simp [h c (by simp)]

theorem dropWhile_self_of_ws {trail : Text} (h : ∀ c ∈ trail, isWs c = true) :
    List.dropWhile (fun x => !isWs x) trail = trail := by
  cases trail with
  | nil => rfl
  | cons c rest =>
    rw [List.dropWhile_cons, if_neg]
    simp [h c (by simp)]

theorem all_ws_of_dropWhile_nil {s : Text} (hd : List.dropWhile isWs s = []) :
    ∀ c ∈ s, isWs c = true :=
  List.dropWhile_eq_nil_iff.mp hd

/-- Appending trailing whitespace does not change the whitespace split. -/
theorem splitWs_append_ws (s : Text) {trail : Text}
    (htr : ∀ c ∈ trail, isWs c = true) :
    pySplitWs (s ++ trail) = pySplitWs s := by
  cases hd : List.dropWhile isWs s with
  | nil =>
    have hall := all_ws_of_dropWhile_nil hd
    rw [splitWs_all_ws hall, splitWs_all_ws]
    intro c hc
    rcases List.mem_append.mp hc with h1 | h2
    · exact hall c h1
    · exact htr c h2
  | cons c l =>
    have hc : isWs c = false := dropWhile_head_not hd
    have hdecomp : s = List.takeWhile isWs s ++ (c :: l) := by
      conv_lhs => rw [← List.takeWhile_append_dropWhile (p := isWs) (l := s)]
      rw [hd]
    have hpre : ∀ x ∈ List.takeWhile isWs s, isWs x = true := fun x hx =>
      mem_takeWhile_sat hx
    have hleft : pySplitWs (s ++ trail) = pySplitWs ((c :: l) ++ trail) := by
      conv_lhs => rw [hdecomp]
      rw [List.append_assoc, splitWs_ws_append hpre]
    have hright : pySplitWs s =
        List.takeWhile (fun x => !isWs x) (c :: l) ::
          pySplitWs (List.dropWhile (fun x => !isWs x) (c :: l)) := by
      conv_lhs => rw [hdecomp]
      rw [splitWs_ws_append hpre, splitWs_run hc]
    have hrun : pySplitWs ((c :: l) ++ trail) =
        List.takeWhile (fun x => !isWs x) ((c :: l) ++ trail) ::
          pySplitWs (List.dropWhile (fun x => !isWs x) ((c :: l) ++ trail)) := by
      rw [List.cons_append, splitWs_run hc, ← List.cons_append]
    rw [hleft, hright, hrun]
    rcases hdl : List.dropWhile (fun x => !isWs x) (c :: l) with _ | ⟨e, r⟩
    · -- the word `c :: l` is all non-whitespace
      have hall : ∀ x ∈ (c :: l), (fun x => !isWs x) x = true :=
        List.dropWhile_eq_nil_iff.mp hdl
      rw [takeWhile_append_all hall, dropWhile_append_all hall,
          takeWhile_nil_of_ws htr, dropWhile_self_of_ws htr, List.append_nil,
          takeWhile_all hall, splitWs_all_ws htr]
      rfl
    · -- the first word ends inside `c :: l`; recurse on the shorter remainder
      have hlen : (e :: r).length < s.length := by
        have h1 : List.dropWhile (fun x => !isWs x) (c :: l) =
            List.dropWhile (fun x => !isWs x) l := by
          rw [List.dropWhile_cons, if_pos (by simp [hc])]
        have h2 : (e :: r).length ≤ l.length := by
          rw [← hdl, h1]
          exact length_dropWhile_le _ l
        have h3 : (c :: l).length ≤ s.length := by
          conv_rhs => rw [hdecomp]
          simp
        simp only [List.length_cons] at h2 h3 ⊢
        omega
      rw [takeWhile_append_pos hdl trail, dropWhile_append_pos hdl trail,
          ← List.cons_append, splitWs_append_ws (e :: r) htr]
termination_by s.length
decreasing_by exact hlen

/-- Stripping boundary whitespace does not change the whitespace split. -/
theorem splitWs_strip (s : Text) : pySplitWs (pyStrip s) = pySplitWs s := by
  set t := s.dropWhile isWs with ht
  have hfront : pySplitWs s = pySplitWs t := by
    conv_lhs => rw [← List.takeWhile_append_dropWhile (p := isWs) (l := s)]
    rw [splitWs_ws_append (fun x hx => mem_takeWhile_sat hx), ht]
  have h2 : t.reverse = t.reverse.takeWhile isWs ++ t.reverse.dropWhile isWs :=
    (List.takeWhile_append_dropWhile ..).symm
  have h3 : t = pyStrip s ++ (t.reverse.takeWhile isWs).reverse := by
    have h4 := congrArg List.reverse h2
    rw [List.reverse_reverse, List.reverse_append] at h4
    exact h4
  have htrail : ∀ c ∈ (t.reverse.takeWhile isWs).reverse, isWs c = true := by
    intro c hc
    rw [List.mem_reverse] at hc
    exact mem_takeWhile_sat hc
  rw [hfront]
  conv_rhs => rw [h3]
  rw [splitWs_append_ws (pyStrip s) htrail]

/-- `' '.join` round-trips through `split()` when all parts are non-empty
whitespace-free words. -/
theorem splitWs_joinWith {parts : List Text}
    (hne : ∀ w ∈ parts, w ≠ [])
    (hfree : ∀ w ∈ parts, ∀ c ∈ w, isWs c = false) :
    pySplitWs (joinWith [' '] parts) = parts := by
  induction parts with
  | nil => rfl
  | cons w rest ih =>
    have hw : w ≠ [] := hne w (by simp)
    have hwf : ∀ c ∈ w, isWs c = false := hfree w (by simp)
    obtain ⟨c, w', rfl⟩ : ∃ c w', w = c :: w' := by
      cases w with
      | nil => exact absurd rfl hw
      | cons c w' => exact ⟨c, w', rfl⟩
    have hc : isWs c = false := hwf c (by simp)
    have hall : ∀ x ∈ (c :: w'), (fun z => !isWs z) x = true := by
      intro x hx
      simp [hwf x hx]
    cases rest with
    | nil =>
      show pySplitWs (c :: w') = [c :: w']
      rw [splitWs_run hc, takeWhile_all hall, dropWhile_all hall]
      rfl
    | cons p ps =>
      have hjoin : joinWith [' '] ((c :: w') :: p :: ps) =
          (c :: w') ++ (' ' :: joinWith [' '] (p :: ps)) := by
        show (c :: w') ++ [' '] ++ joinWith [' '] (p :: ps) = _
        rw [List.append_assoc]
        rfl
      rw [hjoin, List.cons_append, splitWs_run hc, ← List.cons_append,
          takeWhile_append_all hall, dropWhile_append_all hall]
      have hsp : isWs ' ' = true := by decide
      rw [List.takeWhile_cons, if_neg (by simp [hsp]), List.append_nil,
          List.dropWhile_cons, if_neg (by simp [hsp]), splitWs_ws_cons hsp]
      rw [ih (fun x hx => hne x (by simp [hx])) (fun x hx => hfree x (by simp [hx]))]

theorem mem_joinWith {parts : List Text} {c : Char}
    (h : c ∈ joinWith [' '] parts) : c = ' ' ∨ ∃ w ∈ parts, c ∈ w := by
  induction parts with
  | nil => simp [joinWith] at h
  | cons w rest ih =>
    cases rest with
    | nil =>
      exact Or.inr ⟨w, by simp, h⟩
    | cons p ps =>
      have hsplit : joinWith [' '] (w :: p :: ps) =
          w ++ [' '] ++ joinWith [' '] (p :: ps) := rfl
      rw [hsplit] at h
      rcases List.mem_append.mp h with h1 | h2
      · rcases List.mem_append.mp h1 with h3 | h4
        · exact Or.inr ⟨w, by simp, h3⟩
        · simp at h4
          exact Or.inl h4
      · rcases ih h2 with h5 | ⟨v, hv, hcv⟩
        · exact Or.inl h5
        · exact Or.inr ⟨v, by simp [hv], hcv⟩

theorem isPre_through_sep {x : Char} :
    ∀ (pat : Text), x ∉ pat → ∀ (a b : Text), IsPre pat (a ++ x :: b) → IsPre pat a := by
  intro pat
  induction pat with
  | nil => intro _ a b _; exact ⟨a, rfl⟩
  | cons d p' ih =>
    intro hx a b hpre
    obtain ⟨v, hv⟩ := hpre
    cases a with
    | nil =>
      simp only [List.nil_append, List.cons_append, List.cons.injEq] at hv
      exact absurd (hv.1 ▸ List.mem_cons_self d p') (hv.1 ▸ hx)
    | cons e a' =>
      simp only [List.cons_append, List.cons.injEq] at hv
      obtain ⟨rfl, hv2⟩ := hv
      obtain ⟨v', hv'⟩ := ih (fun hm => hx (by simp [hm])) a' b ⟨v, hv2⟩
      exact ⟨v', by rw [List.cons_append, ← hv']⟩

theorem isSub_through_sep {x : Char} :
    ∀ (a : Text) (pat b : Text), x ∉ pat → IsSub pat (a ++ x :: b) →
      IsSub pat a ∨ IsSub pat b := by
  intro a
  induction a with
  | nil =>
    intro pat b hx hsub
    rw [List.nil_append] at hsub
    rcases isSub_cons_elim hsub with hpre | hrest
    · obtain ⟨v, hv⟩ := hpre
      cases pat with
      | nil => exact Or.inl ⟨[], [], rfl⟩
      | cons d p' =>
        simp only [List.cons_append, List.cons.injEq] at hv
        exact absurd (hv.1 ▸ List.mem_cons_self d p') (hv.1 ▸ hx)
    · exact Or.inr hrest
  | cons c a' ih =>
    intro pat b hx hsub
    rw [List.cons_append] at hsub
    rcases isSub_cons_elim hsub with hpre | hrest
    · cases pat with
      | nil => exact Or.inl ⟨[], c :: a', by simp⟩
      | cons d p' =>
        obtain ⟨v, hv⟩ := hpre
        simp only [List.cons_append, List.cons.injEq] at hv
        obtain ⟨rfl, hv2⟩ := hv
        have hpre' : IsPre p' (a' ++ x :: b) := ⟨v, hv2⟩
        obtain ⟨v', hv'⟩ := isPre_through_sep p' (fun hm => hx (by simp [hm])) a' b hpre'
        refine Or.inl (isSub_of_isPre ⟨v', ?_⟩)
        rw [List.cons_append, ← hv']
    · rcases ih pat b hx hrest with h1 | h2
      · exact Or.inl (isSub_cons_of c h1)
      · exact Or.inr h2

theorem isSub_joinWith {pat : Text} {parts : List Text}
    (hpat : pat ≠ []) (hsp : ' ' ∉ pat)
    (h : IsSub pat (joinWith [' '] parts)) : ∃ w ∈ parts, IsSub pat w := by
  induction parts with
  | nil =>
    rw [show joinWith [' '] ([] : List Text) = [] from rfl, isSub_nil_iff] at h
    exact absurd h hpat
  | cons w rest ih =>
    cases rest with
    | nil => exact ⟨w, by simp, h⟩
    | cons p ps =>
      have hsplit : joinWith [' '] (w :: p :: ps) =
          w ++ ' ' :: joinWith [' '] (p :: ps) := by
        show w ++ [' '] ++ joinWith [' '] (p :: ps) = _
        rw [List.append_assoc]
        rfl
      rw [hsplit] at h
      rcases isSub_through_sep w pat (joinWith [' '] (p :: ps)) hsp h with h1 | h2
      · exact ⟨w, by simp, h1⟩
      · obtain ⟨v, hv, hsv⟩ := ih h2
        exact ⟨v, by simp [hv], hsv⟩

/-! ## The sanitizer on occurrence-free text -/

/-- When the input has no fence, no marker and no `'sql'`, the sanitizer
only collapses whitespace. -/
theorem clean_eq_normalize {x : Text}
    (hfence : ¬ IsSub fenceT x)
    (hmk : ∀ mk ∈ completionMarkers, ¬ IsSub mk x)
    (hsql : ¬ IsSub sqlT x) :
    clean_llm_response x = normalizeWs x := by
  have hext : extractFenced x = pyStrip x := by
    simp [extractFenced, pySplitOn_of_not_sub hfence]
  have hstrip := pyStrip_isSub x
  have hrf : pyReplaceFirst sqlT [] (pyStrip x) = pyStrip x :=
    pyReplaceFirst_of_not_sub sqlT [] (pyStrip x)
      (fun h => hsql (isSub_trans h hstrip))
  have hsm : stripMarkers (pyStrip x) = pyStrip x :=
    stripMarkers_of_not_sub (fun mk hmk' =>
      (containsT_eq_false_iff mk (pyStrip x)).mpr
        (fun h => hmk mk hmk' (isSub_trans h hstrip)))
  rw [clean_llm_response, hext, hrf, hsm]
  unfold normalizeWs
  rw [splitWs_strip]

theorem mem_normalize {x : Text} {c : Char} (h : c ∈ normalizeWs x) :
    c = ' ' ∨ c ∈ x := by
  rcases mem_joinWith h with h1 | ⟨w, hw, hcw⟩
  · exact Or.inl h1
  · obtain ⟨-, -, hsub⟩ := splitWs_words x w hw
    exact Or.inr (mem_of_isSub hsub hcw)

theorem notSub_normalize {pat x : Text} (hpat : pat ≠ []) (hsp : ' ' ∉ pat)
    (h : ¬ IsSub pat x) : ¬ IsSub pat (normalizeWs x) := by
  intro hc
  obtain ⟨w, hw, hsub⟩ := isSub_joinWith hpat hsp hc
  obtain ⟨-, -, hwx⟩ := splitWs_words x w hw
  exact h (isSub_trans hsub hwx)

theorem markers_notSub_normalize {x : Text}
    (hmk : ∀ mk ∈ completionMarkers, ¬ IsSub mk x) :
    ∀ mk ∈ completionMarkers, ¬ IsSub mk (normalizeWs x) := by
  have hhash : '#' ∉ x := by
    intro hm
    have h1 : (strT "#" : Text) = ['#'] := by decide
    exact hmk (strT "#") (by decide) (h1 ▸ isSub_single_of_mem hm)
  have hclass : ∀ mk ∈ completionMarkers, (' ' ∉ mk ∧ mk ≠ []) ∨ '#' ∈ mk := by
    decide
  intro mk hmem hsub
  rcases hclass mk hmem with ⟨hnsp, hne⟩ | hh
  · exact notSub_normalize hne hnsp (hmk mk hmem) hsub
  · have h1 : '#' ∈ normalizeWs x := mem_of_isSub hsub hh
    rcases mem_normalize h1 with h2 | h3
    · exact absurd h2 (by decide)
    · exact hhash h3

theorem normalize_normalize (x : Text) :
    normalizeWs (normalizeWs x) = normalizeWs x := by
  have hwords := splitWs_words x
  unfold normalizeWs
  rw [splitWs_joinWith (fun w hw => (hwords w hw).1)
      (fun w hw => (hwords w hw).2.1)]

/-! ## Loop facts -/

theorem diagnoseFix_fields (env : Env) (m : Nat) (st : LoopState) :
    (diagnoseFix env m st).ret.sql = st.ret.sql ∧
    (diagnoseFix env m st).ret.df = st.ret.df ∧
    (diagnoseFix env m st).nDiag = st.nDiag + 1 ∧
    (diagnoseFix env m st).nExec = st.nExec ∧
    (diagnoseFix env m st).ret.error_reason.length ≤ st.ret.error_reason.length + 1 := by
  unfold diagnoseFix
  cases hdg : env.diag st.nDiag with
  | none => simp
  | some txt =>
    by_cases hsent : containsT sentinelT txt = true
    · simp [hsent]
    · cases hfx : env.fix st.nFix with
      | none => simp [hsent, hfx]
      | some r => simp [hsent, hfx]

theorem iteration_sql (env : Env) (m : Nat) (st : LoopState) :
    (iteration env m st).ret.sql =
      st.ret.sql ++ [clean_llm_response st.response] := by
  unfold iteration
  cases hx : env.exec st.nExec with
  | none => simp [(diagnoseFix_fields env m _).1]
  | some d =>
    by_cases hde : d.isEmpty = true
    · simp [hde, (diagnoseFix_fields env m _).1]
    · simp [hde]

theorem iteration_err_le (env : Env) (m : Nat) (st : LoopState) :
    (iteration env m st).ret.error_reason.length ≤
      st.ret.error_reason.length + 1 := by
  unfold iteration
  cases hx : env.exec st.nExec with
  | none =>
    simp only [hx]
    refine le_trans ((diagnoseFix_fields env m _).2.2.2.2) ?_
    simp
  | some d =>
    by_cases hde : d.isEmpty = true
    · simp only [hx, hde, if_true]
      refine le_trans ((diagnoseFix_fields env m _).2.2.2.2) ?_
      simp
    · simp [hx, hde]

theorem iteration_nExec (env : Env) (m : Nat) (st : LoopState) :
    (iteration env m st).nExec = st.nExec + 1 := by
  unfold iteration
  cases hx : env.exec st.nExec with
  | none => simp [(diagnoseFix_fields env m _).2.2.2.1]
  | some d =>
    by_cases hde : d.isEmpty = true
    · simp [hde, (diagnoseFix_fields env m _).2.2.2.1]
    · simp [hde]

theorem diagnoseFix_retry (env : Env) (m : Nat) (st : LoopState) :
    (diagnoseFix env m st).retry_count = st.retry_count ∨
    (diagnoseFix env m st).retry_count = m + 1 := by
  unfold diagnoseFix
  cases hdg : env.diag st.nDiag with
  | none => simp
  | some txt =>
    by_cases hsent : containsT sentinelT txt = true
    · simp [hsent]
    · cases hfx : env.fix st.nFix with
      | none => simp [hsent, hfx]
      | some r => simp [hsent, hfx]

theorem iteration_retry_lt (env : Env) (m : Nat) (st : LoopState)
    (h : st.retry_count < m) :
    st.retry_count < (iteration env m st).retry_count := by
  unfold iteration
  cases hx : env.exec st.nExec with
  | none =>
    simp only [hx]
    rcases diagnoseFix_retry env m
      { st with ret := { st.ret with sql := st.ret.sql ++ [clean_llm_response st.response] },
                nExec := st.nExec + 1 } with hr | hr
    · simp only [hr]
      omega
    · simp only [hr]
      omega
  | some d =>
    by_cases hde : d.isEmpty = true
    · simp only [hx, hde, if_true]
      rcases diagnoseFix_retry env m
        { st with ret := { st.ret with
                    sql := st.ret.sql ++ [clean_llm_response st.response],
                    df := st.ret.df ++ [d] },
                  nExec := st.nExec + 1 } with hr | hr
      · simp only [hr]
        omega
      · simp only [hr]
        omega
    · simp [hx, hde]
      omega

theorem iteration_df (env : Env) (m : Nat) (st : LoopState) :
    (env.exec st.nExec = none → (iteration env m st).ret.df = st.ret.df) ∧
    (∀ d, env.exec st.nExec = some d →
      (iteration env m st).ret.df = st.ret.df ++ [d]) := by
  constructor
  · intro hx
    unfold iteration
    simp [hx, (diagnoseFix_fields env m _).2.1]
  · intro d hx
    unfold iteration
    by_cases hde : d.isEmpty = true
    · simp [hx, hde, (diagnoseFix_fields env m _).2.1]
    · simp [hx, hde]

theorem loopGo_succ (env : Env) (m fuel : Nat) (st : LoopState) :
    loopGo env m (fuel + 1) st =
      if st.retry_count < m then loopGo env m fuel (iteration env m st) else st :=
  rfl

theorem loopGo_of_ge (env : Env) (m : Nat) (fuel : Nat) (st : LoopState)
    (h : m ≤ st.retry_count) : loopGo env m fuel st = st := by
  cases fuel with
  | zero => rfl
  | succ n =>
    rw [loopGo_succ, if_neg (by omega)]

/-- Fuel adequacy: with at least `m - retry_count` fuel, adding more fuel
does not change the result, so `loopGo` with fuel `m` computes the fixpoint
of the unbounded `while` loop of src/text2sql_system.py:181. -/
theorem loopGo_fuel_stable (env : Env) (m : Nat) :
    ∀ fuel st, m - st.retry_count ≤ fuel →
      loopGo env m (fuel + 1) st = loopGo env m fuel st := by
  intro fuel
  induction fuel with
  | zero =>
    intro st h
    rw [loopGo_succ, if_neg (by omega)]
    rfl
  | succ n ih =>
    intro st h
    by_cases hlt : st.retry_count < m
    · rw [loopGo_succ env m (n + 1) st, if_pos hlt, loopGo_succ env m n st,
          if_pos hlt]
      exact ih (iteration env m st)
        (by have := iteration_retry_lt env m st hlt; omega)
    · rw [loopGo_succ env m (n + 1) st, if_neg hlt, loopGo_succ env m n st,
          if_neg hlt]

/-- Any property preserved by one iteration (while the loop is live) is
preserved by the whole loop. -/
theorem loopGo_preserve (env : Env) (m : Nat) (P : LoopState → Prop)
    (hstep : ∀ st, st.retry_count < m → P st → P (iteration env m st)) :
    ∀ fuel st, P st → P (loopGo env m fuel st) := by
  intro fuel
  induction fuel with
  | zero => intro st h; exact h
  | succ n ih =>
    intro st h
    rw [loopGo_succ]
    by_cases hlt : st.retry_count < m
    · rw [if_pos hlt]
      exact ih (iteration env m st) (hstep st hlt h)
    · rw [if_neg hlt]
      exact h

/-- One iteration in the exhaustion scenario: the execution raises, the
diagnosis is recorded, the fix succeeds, and `retry_count` advances by
exactly one. -/
theorem iteration_scripted {env : Env} (hscr : Scripted env) (m : Nat)
    (st : LoopState) :
    (iteration env m st).ret.error_reason.length =
        st.ret.error_reason.length + 1 ∧
    (iteration env m st).retry_count = st.retry_count + 1 := by
  obtain ⟨hex, hdg, hfx⟩ := hscr
  obtain ⟨t, ht, hts⟩ := hdg st.nDiag
  obtain ⟨r, hr⟩ := hfx st.nFix
  unfold iteration diagnoseFix
  simp [hex st.nExec, ht, hts, hr]

theorem loopGo_scripted {env : Env} (hscr : Scripted env) (m : Nat) :
    ∀ fuel st, st.retry_count + fuel = m →
      (loopGo env m fuel st).ret.sql.length = st.ret.sql.length + fuel ∧
      (loopGo env m fuel st).ret.error_reason.length =
        st.ret.error_reason.length + fuel ∧
      (loopGo env m fuel st).ret.df = st.ret.df := by
  intro fuel
  induction fuel with
  | zero => intro st _; simp [loopGo]
  | succ n ih =>
    intro st h
    have hlt : st.retry_count < m := by omega
    rw [loopGo_succ, if_pos hlt]
    have hit := iteration_scripted hscr m st
    have hsql := iteration_sql env m st
    have hdf := (iteration_df env m st).1 (hscr.1 st.nExec)
    obtain ⟨h1, h2, h3⟩ := ih (iteration env m st) (by omega)
    refine ⟨?_, ?_, ?_⟩
    · rw [h1, hsql]
      simp only [List.length_append, List.length_cons, List.length_nil]
      omega
    · rw [h2, hit.1]
      omega
    · rw [h3, hdf]

/-- The exhaustion scenario at the level of `query`: the loop performs
exactly `max_retry` attempts, records one diagnosis per attempt, and never
obtains a dataframe. -/
theorem query_scripted {env : Env} {r : Text} (hgen : env.gen = some r)
    (hscr : Scripted env) (m : Nat) :
    (query env m).sql.length = m ∧
    (query env m).error_reason.length = m ∧
    (query env m).df = [] := by
  unfold query queryState
  rw [hgen]
  have h := loopGo_scripted hscr m m
    { ret := { emptyRet with response := [r] }, response := r,
      retry_count := 0, nExec := 0, nDiag := 0, nFix := 0 } (by simp)
  simpa [emptyRet] using h

/-- A successful execution (non-empty dataframe): the dataframe is appended,
no diagnosis or fix call is made, and `retry_count` jumps past the bound. -/
theorem iteration_success (env : Env) (m : Nat) (st : LoopState) (d : DF)
    (hx : env.exec st.nExec = some d) (hd : d.isEmpty = false) :
    (iteration env m st).retry_count = m + 2 ∧
    (iteration env m st).nDiag = st.nDiag ∧
    (iteration env m st).nFix = st.nFix ∧
    (iteration env m st).ret.df = st.ret.df ++ [d] ∧
    (iteration env m st).ret.error_reason = st.ret.error_reason := by
  unfold iteration
  simp [hx, hd]

/-- A failed execution (raise or empty dataframe) always invokes the
diagnoser once. -/
theorem iteration_fail_nDiag (env : Env) (m : Nat) (st : LoopState)
    (hfail : env.exec st.nExec = none ∨
      ∃ d, env.exec st.nExec = some d ∧ d.isEmpty = true) :
    (iteration env m st).nDiag = st.nDiag + 1 := by
  unfold iteration
  rcases hfail with hx | ⟨d, hx, hde⟩
  · simp [hx, (diagnoseFix_fields env m _).2.2.1]
  · simp [hx, hde, (diagnoseFix_fields env m _).2.2.1]

/-- A failed execution whose diagnosis contains the sentinel: the loop
records nothing for it, makes no fix call, and jumps past the bound. -/
theorem iteration_sentinel (env : Env) (m : Nat) (st : LoopState) (t : Text)
    (hfail : env.exec st.nExec = none ∨
      ∃ d, env.exec st.nExec = some d ∧ d.isEmpty = true)
    (hdg : env.diag st.nDiag = some t)
    (hsent : containsT sentinelT t = true) :
    (iteration env m st).retry_count = m + 2 ∧
    (iteration env m st).ret.error_reason = st.ret.error_reason ∧
    (iteration env m st).nFix = st.nFix ∧
    (iteration env m st).nDiag = st.nDiag + 1 ∧
    (iteration env m st).ret.sql.length = st.ret.sql.length + 1 := by
  unfold iteration diagnoseFix
  rcases hfail with hx | ⟨d, hx, hde⟩
  · simp [hx, hdg, hsent]
  · simp [hx, hde, hdg, hsent]

/-- Each iteration appends exactly one SQL entry. -/
theorem iteration_sql_len (env : Env) (m : Nat) (st : LoopState) :
    (iteration env m st).ret.sql.length = st.ret.sql.length + 1 := by
  rw [iteration_sql]
  simp

/-- Across any run, at most one diagnosis is recorded per attempt. -/
theorem query_err_le_sql (env : Env) (m : Nat) :
    (query env m).error_reason.length ≤ (query env m).sql.length := by
  unfold query queryState
  cases hg : env.gen with
  | none => simp [emptyRet]
  | some r =>
    have h := loopGo_preserve env m
      (fun st => st.ret.error_reason.length ≤ st.ret.sql.length)
      (fun st _ hp => by
        have h1 := iteration_err_le env m st
        have h2 := iteration_sql_len env m st
        omega)
      m
      { ret := { emptyRet with response := [r] }, response := r,
        retry_count := 0, nExec := 0, nDiag := 0, nFix := 0 }
      (by simp [emptyRet])
    exact h

/-- Across any run, at most one dataframe is recorded per attempt. -/
theorem query_df_le_sql (env : Env) (m : Nat) :
    (query env m).df.length ≤ (query env m).sql.length := by
  unfold query queryState
  cases hg : env.gen with
  | none => simp [emptyRet]
  | some r =>
    have h := loopGo_preserve env m
      (fun st => st.ret.df.length ≤ st.ret.sql.length)
      (fun st _ hp => by
        have h2 := iteration_sql_len env m st
        cases hx : env.exec st.nExec with
        | none =>
          have h1 := congrArg List.length ((iteration_df env m st).1 hx)
          omega
        | some d =>
          have h1 := congrArg List.length ((iteration_df env m st).2 d hx)
          simp only [List.length_append, List.length_cons, List.length_nil] at h1
          omega)
      m
      { ret := { emptyRet with response := [r] }, response := r,
        retry_count := 0, nExec := 0, nDiag := 0, nFix := 0 }
      (by simp [emptyRet])
    exact h

/-- Only the final recorded dataframe can be non-empty: the loop halts
immediately after the first non-empty result. -/
theorem query_df_prefix_empty (env : Env) (m : Nat) :
    ∀ d ∈ (query env m).df.dropLast, d.isEmpty = true := by
  unfold query queryState
  cases hg : env.gen with
  | none => simp [emptyRet]
  | some r =>
    have h := loopGo_preserve env m
      (fun st => (∀ d ∈ st.ret.df, d.isEmpty = true) ∨
        (m < st.retry_count ∧ ∀ d ∈ st.ret.df.dropLast, d.isEmpty = true))
      (fun st hlt hp => by
        rcases hp with hall | ⟨hgt, -⟩
        · cases hx : env.exec st.nExec with
          | none =>
            left
            rw [(iteration_df env m st).1 hx]
            exact hall
          | some d =>
            by_cases hde : d.isEmpty = true
            · left
              rw [(iteration_df env m st).2 d hx]
              intro x hx'
              rcases List.mem_append.mp hx' with h1 | h2
              · exact hall x h1
              · simp at h2
                rw [h2]
                exact hde
            · right
              obtain ⟨hrc, -, -, hdf, -⟩ :=
                iteration_success env m st d hx (by simpa using hde)
              refine ⟨by omega, ?_⟩
              rw [hdf]
              simp only [List.dropLast_concat]
              exact hall
        · omega)
      m
      { ret := { emptyRet with response := [r] }, response := r,
        retry_count := 0, nExec := 0, nDiag := 0, nFix := 0 }
      (Or.inl (by simp [emptyRet]))
    rcases h with hall | ⟨-, hdrop⟩
    · intro d hd
      exact hall d ((List.dropLast_sublist _).subset hd)
    · exact hdrop

/-! ## Concrete scripted environments -/

/-- Exhaustion scenario: generation succeeds, every execution raises, the
diagnoser returns non-sentinel text, the fixer succeeds. -/
def envScripted : Env :=
  ⟨some (strT "q"), fun _ => none, fun _ => some (strT "use table t"),
   fun _ => some (strT "r")⟩

theorem envScripted_scripted : Scripted envScripted :=
  ⟨fun _ => rfl, fun _ => ⟨strT "use table t", rfl, by decide⟩,
   fun _ => ⟨strT "r", rfl⟩⟩

/-- Empty-result scenario: the single execution returns a zero-row
dataframe, then the diagnoser raises. -/
def envEmpty : Env :=
  ⟨some (strT "SELECT 1"), fun _ => some [], fun _ => none, fun _ => none⟩

/-- Generation-failure scenario. -/
def envGenFail : Env := ⟨none, fun _ => none, fun _ => none, fun _ => none⟩

/-- Out-of-scope scenario: execution raises, diagnosis returns the
sentinel. -/
def envOut : Env :=
  ⟨some (strT "q"), fun _ => none, fun _ => some (strT "NOT ASKING FOR SQL"),
   fun _ => some (strT "r")⟩

/-- Success scenario: the single execution returns a one-row dataframe. -/
def envOK : Env :=
  ⟨some (strT "SELECT 1"), fun _ => some [[strT "42"]], fun _ => none,
   fun _ => none⟩

/-- Empty-result loop: every execution returns a zero-row dataframe and
diagnosis/fix always succeed. -/
def envEmptyLoop : Env :=
  ⟨some (strT "q"), fun _ => some [], fun _ => some (strT "go"),
   fun _ => some (strT "r")⟩

/-- A mid-run loop state used to instantiate per-attempt theorems. -/
def stW : LoopState := ⟨⟨[strT "q"], [], [], []⟩, strT "q", 0, 0, 0, 0⟩

/-! ## Claim theorems -/

/-- C1 (counterexample): in the exhaustion scenario with `max_retry = 3`
(initial generation succeeds, every execution raises, the diagnoser returns
non-sentinel text, the fixer succeeds) the loop records exactly 3 Attempts,
not `max_retry + 1 = 4` as the claim states: the `while retry_count <
max_retry` loop of src/text2sql_system.py:181 runs at most `max_retry`
iterations. -/
theorem C1_counterexample :
    (query envScripted 3).sql.length = 3 ∧
    ¬ (query envScripted 3).sql.length = 3 + 1 := by
  decide

/-- C1 (amended): for every run in which initial generation succeeds and
every execution fails with the diagnoser returning non-sentinel text and
the fixer succeeding, the total number of execution Attempts recorded is
exactly `max_retry` (in particular 3 for `max_retry = 3`, not 4), no
dataframe is ever recorded, and the run ends without success. -/
theorem C1_attempts_eq_max_retry (env : Env) (r : Text) (m : Nat)
    (hgen : env.gen = some r) (hscr : Scripted env) :
    (query env m).sql.length = m ∧ (query env m).df = [] := by
  obtain ⟨h1, -, h3⟩ := query_scripted hgen hscr m
  exact ⟨h1, h3⟩

/-- C1 (witness): the amended count at `max_retry = 3`. -/
theorem C1_witness :
    (query envScripted 3).sql.length = 3 ∧ (query envScripted 3).df = [] :=
  C1_attempts_eq_max_retry envScripted (strT "q") 3 rfl envScripted_scripted

/-- C2 (counterexample): in the exhaustion scenario with `max_retry = 3`
the loop records 3 DiagnosisRecords and 3 Attempts, violating the claimed
bound `DiagnosisRecords ≤ Attempts − 1`: the final failed attempt is also
diagnosed (there is no budget check before diagnosis at
src/text2sql_system.py:212-230). -/
theorem C2_counterexample :
    (query envScripted 3).error_reason.length = 3 ∧
    (query envScripted 3).sql.length = 3 ∧
    ¬ (query envScripted 3).error_reason.length ≤
        (query envScripted 3).sql.length - 1 := by
  decide

/-- C2 (amended): the number of DiagnosisRecords never exceeds the number
of Attempts (each attempt records at most one diagnosis), and in the
exhaustion scenario every failed attempt — including the final one — is
diagnosed, so exactly `max_retry` DiagnosisRecords are recorded (3 when
`max_retry = 3`). -/
theorem C2_diagnosis_counts :
    (∀ env m, (query env m).error_reason.length ≤ (query env m).sql.length) ∧
    (∀ env r m, env.gen = some r → Scripted env →
      (query env m).error_reason.length = m) := by
  refine ⟨query_err_le_sql, ?_⟩
  intro env r m hgen hscr
  exact (query_scripted hgen hscr m).2.1

/-- C2 (witness): both parts at a concrete run with `max_retry = 3`. -/
theorem C2_witness :
    (query envScripted 3).error_reason.length ≤
      (query envScripted 3).sql.length ∧
    (query envScripted 3).error_reason.length = 3 :=
  ⟨C2_diagnosis_counts.1 envScripted 3,
   C2_diagnosis_counts.2 envScripted (strT "q") 3 rfl envScripted_scripted⟩

/-- C3: whenever an attempt fails (the executor raises or returns an empty
dataframe) and the diagnoser's text contains the sentinel
`'NOT ASKING FOR SQL'`, the loop terminates right after this attempt
regardless of remaining budget, appends nothing to `error_reason`, and
makes no fix call; the diagnoser was called exactly once for it. -/
theorem C3_sentinel_terminates (env : Env) (m : Nat) (st : LoopState)
    (t : Text) (fuel : Nat)
    (hlive : st.retry_count < m)
    (hfail : env.exec st.nExec = none ∨
      ∃ d, env.exec st.nExec = some d ∧ d.isEmpty = true)
    (hdg : env.diag st.nDiag = some t)
    (hsent : containsT sentinelT t = true) :
    loopGo env m (fuel + 1) st = iteration env m st ∧
    (iteration env m st).ret.error_reason = st.ret.error_reason ∧
    (iteration env m st).nFix = st.nFix ∧
    (iteration env m st).nDiag = st.nDiag + 1 ∧
    (iteration env m st).ret.sql.length = st.ret.sql.length + 1 := by
  obtain ⟨hrc, herr, hfx, hdiag, hsql⟩ :=
    iteration_sentinel env m st t hfail hdg hsent
  refine ⟨?_, herr, hfx, hdiag, hsql⟩
  rw [loopGo_succ, if_pos hlive]
  exact loopGo_of_ge env m fuel _ (by omega)

/-- C3 (witness): the out-of-scope scenario from a fresh run with a large
remaining budget (`max_retry = 5`). -/
theorem C3_witness :
    loopGo envOut 5 (9 + 1) stW = iteration envOut 5 stW ∧
    (iteration envOut 5 stW).ret.error_reason = stW.ret.error_reason ∧
    (iteration envOut 5 stW).nFix = stW.nFix ∧
    (iteration envOut 5 stW).nDiag = stW.nDiag + 1 ∧
    (iteration envOut 5 stW).ret.sql.length = stW.ret.sql.length + 1 :=
  C3_sentinel_terminates envOut 5 stW (strT "NOT ASKING FOR SQL") 9
    (by decide) (Or.inl rfl) rfl (by decide)

/-- C4: an attempt whose execution returns an empty result set is treated
as a failure: the diagnoser is invoked for it (a); an attempt whose
execution returns a non-empty result is a success: the loop halts
immediately with no diagnosis or fix call (b); hence in every trace all
recorded dataframes except possibly the last are empty, so at most one
attempt per trace is a success (c). -/
theorem C4_empty_result_is_failure :
    (∀ env m (st : LoopState) d, env.exec st.nExec = some d →
      d.isEmpty = true → (iteration env m st).nDiag = st.nDiag + 1) ∧
    (∀ env m (st : LoopState) d fuel, st.retry_count < m →
      env.exec st.nExec = some d → d.isEmpty = false →
      (iteration env m st).nDiag = st.nDiag ∧
      (iteration env m st).nFix = st.nFix ∧
      loopGo env m (fuel + 1) st = iteration env m st) ∧
    (∀ env m, ∀ d ∈ (query env m).df.dropLast, d.isEmpty = true) := by
  refine ⟨?_, ?_, query_df_prefix_empty⟩
  · intro env m st d hx hde
    exact iteration_fail_nDiag env m st (Or.inr ⟨d, hx, hde⟩)
  · intro env m st d fuel hlive hx hde
    obtain ⟨hrc, hdiag, hfx, -, -⟩ := iteration_success env m st d hx hde
    refine ⟨hdiag, hfx, ?_⟩
    rw [loopGo_succ, if_pos hlive]
    exact loopGo_of_ge env m fuel _ (by omega)

/-- C4 (witness): the empty-result, success and at-most-one-success parts
at concrete runs. -/
theorem C4_witness :
    (iteration envEmptyLoop 3 stW).nDiag = stW.nDiag + 1 ∧
    (iteration envOK 3 stW).nDiag = stW.nDiag ∧
    (([] : DF) ∈ (query envEmptyLoop 2).df.dropLast ∧
      (([] : DF)).isEmpty = true) :=
  ⟨C4_empty_result_is_failure.1 envEmptyLoop 3 stW [] rfl rfl,
   (C4_empty_result_is_failure.2.1 envOK 3 stW [[strT "42"]] 5 (by decide)
      rfl rfl).1,
   by decide, C4_empty_result_is_failure.2.2 envEmptyLoop 2 [] (by decide)⟩

/-- C5: when the initial SQL-generation call raises, the loop returns at
once with the empty dictionary (empty `response`, `sql`, `error_reason`
and `df` lists) and performs no execution, diagnosis or fix call. -/
theorem C5_generation_failure (env : Env) (m : Nat) (hgen : env.gen = none) :
    query env m = emptyRet ∧
    (queryState env m).nExec = 0 ∧
    (queryState env m).nDiag = 0 ∧
    (queryState env m).nFix = 0 := by
  unfold query queryState
  rw [hgen]
  exact ⟨rfl, rfl, rfl, rfl⟩

/-- C5 (witness): the generation-failure environment. -/
theorem C5_witness :
    query envGenFail 3 = emptyRet ∧
    (queryState envGenFail 3).nExec = 0 ∧
    (queryState envGenFail 3).nDiag = 0 ∧
    (queryState envGenFail 3).nFix = 0 :=
  C5_generation_failure envGenFail 3 rfl

/-- C6 (counterexample): a run whose only attempt executed but returned an
empty result set (a failure — every recorded dataframe is empty, nothing
succeeded), yet `get_last_successful_result` does not return `(None, None)`:
it returns the failed attempt's sql and empty dataframe, because the code
only checks that the `sql` and `df` lists are non-empty
(src/text2sql_system.py:253). -/
theorem C6_counterexample :
    (∀ d ∈ (query envEmpty 3).df, d.isEmpty = true) ∧
    get_last_successful_result (query envEmpty 3) =
      (some (strT "SELECT 1"), some []) ∧
    ¬ get_last_successful_result (query envEmpty 3) = (none, none) := by
  decide

/-- C6 (amended): `get_last_successful_result` returns the pair of the last
`sql` entry and the last `df` entry whenever both lists are non-empty —
whether or not any attempt succeeded, and even though the two entries may
belong to different attempts — and `(None, None)` otherwise; it is a pure
function of the trace. -/
theorem C6_last_entries (rd : RetDict) :
    (rd.sql ≠ [] → rd.df ≠ [] →
      get_last_successful_result rd = (rd.sql.getLast?, rd.df.getLast?)) ∧
    (rd.sql = [] ∨ rd.df = [] →
      get_last_successful_result rd = (none, none)) := by
  constructor
  · intro h1 h2
    rw [get_last_successful_result, if_pos ⟨h1, h2⟩]
  · intro h
    rw [get_last_successful_result, if_neg]
    rintro ⟨h1, h2⟩
    rcases h with h | h
    · exact h1 h
    · exact h2 h

/-- C6 (witness): both branches at concrete traces. -/
theorem C6_witness :
    get_last_successful_result ⟨[], [strT "a"], [], [[]]⟩ =
      (([strT "a"] : List Text).getLast?, ([[]] : List DF).getLast?) ∧
    get_last_successful_result ⟨[], [strT "a"], [], []⟩ = (none, none) :=
  ⟨(C6_last_entries ⟨[], [strT "a"], [], [[]]⟩).1 (by decide) (by decide),
   (C6_last_entries ⟨[], [strT "a"], [], []⟩).2 (Or.inr rfl)⟩

/-- C7 (counterexample): the fenced branch of the sanitizer removes every
occurrence of the lowercase substring `'sql'` from the content — here from
inside the identifier `sqltable`, although the content does not begin with
a language tag — and the matching is case-sensitive: an actual leading
`SQL` tag is not removed. -/
theorem C7_counterexample :
    clean_llm_response (fenceT ++ (strT "SELECT a FROM sqltable" ++ fenceT)) =
      strT "SELECT a FROM table" ∧
    clean_llm_response (fenceT ++ (strT "SQL SELECT 1" ++ fenceT)) =
      strT "SQL SELECT 1" := by
  decide

/-- C7 (amended): in the fenced case the sanitizer performs a
case-sensitive replace-all of `'sql'` over the whole extracted content
(`splits[1].replace('sql', '')`, src/text2sql_system.py:27), not a removal
of only a first leading case-insensitive tag; consequently content is
passed through up to whitespace collapsing exactly when it contains no
occurrence of lowercase `'sql'` (and no marker) at all. -/
theorem C7_fenced_removes_all_sql :
    (∀ t : Text, (∀ ch ∈ t, ch ≠ bq) →
      extractFenced (fenceT ++ (t ++ fenceT)) =
        pyStrip (pyReplace sqlT [] t)) ∧
    (∀ t : Text, (∀ ch ∈ t, ch ≠ bq) → containsT sqlT t = false →
      (∀ mk ∈ completionMarkers, containsT mk t = false) →
      clean_llm_response (fenceT ++ (t ++ fenceT)) = normalizeWs t) := by
  have hext : ∀ t : Text, (∀ ch ∈ t, ch ≠ bq) →
      extractFenced (fenceT ++ (t ++ fenceT)) =
        pyStrip (pyReplace sqlT [] t) := by
    intro t ht
    rw [extractFenced]
    rw [pySplitOn_wrap ht]
    rfl
  refine ⟨hext, ?_⟩
  intro t ht hsql hmk
  have hsql' : ¬ IsSub sqlT t := (containsT_eq_false_iff sqlT t).mp hsql
  have hrepl : pyReplace sqlT [] t = t := pyReplace_of_not_sub [] hsql'
  have hstrip := pyStrip_isSub t
  have hrf : pyReplaceFirst sqlT [] (pyStrip t) = pyStrip t :=
    pyReplaceFirst_of_not_sub sqlT [] (pyStrip t)
      (fun h => hsql' (isSub_trans h hstrip))
  have hsm : stripMarkers (pyStrip t) = pyStrip t :=
    stripMarkers_of_not_sub (fun mk hmk' =>
      (containsT_eq_false_iff mk (pyStrip t)).mpr
        (fun h => (containsT_eq_false_iff mk t).mp (hmk mk hmk')
          (isSub_trans h hstrip)))
  rw [clean_llm_response, hext t ht, hrepl, hrf, hsm]
  unfold normalizeWs
  rw [splitWs_strip]

/-- C7 (witness): the amended behaviour at concrete fenced inputs. -/
theorem C7_witness :
    extractFenced (fenceT ++ (strT "sql SELECT 1" ++ fenceT)) =
      pyStrip (pyReplace sqlT [] (strT "sql SELECT 1")) ∧
    clean_llm_response (fenceT ++ (strT "SELECT 1 FROM t" ++ fenceT)) =
      normalizeWs (strT "SELECT 1 FROM t") :=
  ⟨C7_fenced_removes_all_sql.1 (strT "sql SELECT 1") (by decide),
   C7_fenced_removes_all_sql.2 (strT "SELECT 1 FROM t") (by decide)
     (by decide) (by decide)⟩

/-- C8 (counterexample): `"a sql sql b"` has no fences and no completion
markers, yet the sanitizer is not idempotent on it: one pass removes the
first `'sql'` giving `"a sql b"`, and a second pass removes the remaining
one giving `"a b"`. -/
theorem C8_counterexample :
    containsT fenceT (strT "a sql sql b") = false ∧
    (∀ mk ∈ completionMarkers, containsT mk (strT "a sql sql b") = false) ∧
    clean_llm_response (strT "a sql sql b") = strT "a sql b" ∧
    clean_llm_response (clean_llm_response (strT "a sql sql b")) =
      strT "a b" ∧
    ¬ clean_llm_response (clean_llm_response (strT "a sql sql b")) =
        clean_llm_response (strT "a sql sql b") := by
  decide

/-- C8 (amended): the sanitizer is idempotent on text that lacks fences,
completion markers, and the substring `'sql'` (the extra `'sql'`-freedom
hypothesis is necessary, as the counterexample shows: each pass removes one
more occurrence of `'sql'`). -/
theorem C8_idempotent_on_clean (x : Text)
    (hfence : containsT fenceT x = false)
    (hmk : ∀ mk ∈ completionMarkers, containsT mk x = false)
    (hsql : containsT sqlT x = false) :
    clean_llm_response (clean_llm_response x) = clean_llm_response x := by
  have hfence' : ¬ IsSub fenceT x := (containsT_eq_false_iff ..).mp hfence
  have hmk' : ∀ mk ∈ completionMarkers, ¬ IsSub mk x := fun mk h =>
    (containsT_eq_false_iff ..).mp (hmk mk h)
  have hsql' : ¬ IsSub sqlT x := (containsT_eq_false_iff ..).mp hsql
  have h1 : clean_llm_response x = normalizeWs x :=
    clean_eq_normalize hfence' hmk' hsql'
  have hfence2 : ¬ IsSub fenceT (normalizeWs x) :=
    notSub_normalize (by decide) (by decide) hfence'
  have hsql2 : ¬ IsSub sqlT (normalizeWs x) :=
    notSub_normalize (by decide) (by decide) hsql'
  have hmk2 := markers_notSub_normalize hmk'
  rw [h1, clean_eq_normalize hfence2 hmk2 hsql2, normalize_normalize]

/-- C8 (witness): idempotence at a concrete marker-free, fence-free,
`'sql'`-free input. -/
theorem C8_witness :
    clean_llm_response (clean_llm_response (strT "SELECT 1  FROM t")) =
      clean_llm_response (strT "SELECT 1  FROM t") :=
  C8_idempotent_on_clean (strT "SELECT 1  FROM t") (by decide) (by decide)
    (by decide)

/-- C9: fence extraction.  (i) When the raw text decomposes as
`a ⧺ fence ⧺ b ⧺ fence ⧺ c` with no backtick inside `a` or `b`, the split
has at least three chunks and chunk 1 is exactly the content `b` between
the first fence pair; (ii) when the text contains no fence at all, the
whole (stripped) text is used; (iii) on the spec's concrete input
`"prose \x60\x60\x60sql SELECT 1\x60\x60\x60 prose"` the sanitizer returns
exactly `"SELECT 1"`. -/
theorem C9_fence_extraction :
    (∀ a b c : Text, (∀ ch ∈ a, ch ≠ bq) → (∀ ch ∈ b, ch ≠ bq) →
      3 ≤ (pySplitOn fenceT (a ++ (fenceT ++ (b ++ (fenceT ++ c))))).length ∧
      (pySplitOn fenceT (a ++ (fenceT ++ (b ++ (fenceT ++ c))))).getD 1 []
        = b) ∧
    (∀ x : Text, containsT fenceT x = false → extractFenced x = pyStrip x) ∧
    clean_llm_response
      (strT "prose " ++ (fenceT ++ (strT "sql SELECT 1" ++
        (fenceT ++ strT " prose")))) = strT "SELECT 1" := by
  refine ⟨?_, ?_, by decide⟩
  · intro a b c ha hb
    rw [pySplitOn_first_pair c ha hb]
    constructor
    · rcases hL : splitOnFuel fenceT (c.length + 4) c with _ | ⟨t, ts⟩
      · exact absurd hL (splitOnFuel_ne_nil _ _ _)
      · simp
    · rfl
  · intro x hx
    rw [extractFenced, pySplitOn_of_not_sub ((containsT_eq_false_iff ..).mp hx)]
    rfl

/-- C9 (witness): the general parts at concrete inputs. -/
theorem C9_witness :
    (pySplitOn fenceT (strT "p " ++ (fenceT ++ (strT "sql x" ++
        (fenceT ++ strT " q"))))).getD 1 [] = strT "sql x" ∧
    extractFenced (strT "no fences here") = pyStrip (strT "no fences here") :=
  ⟨(C9_fence_extraction.1 (strT "p ") (strT "sql x") (strT " q")
      (by decide) (by decide)).2,
   C9_fence_extraction.2.1 (strT "no fences here") (by decide)⟩

/-- C10: the `df` list gains exactly one entry per attempt whose execution
returned without raising — including empty result sets, appended before the
empty check raises — and none for attempts whose execution raised; hence
`df` is never longer than `sql`, and it can contain empty dataframes
produced by failed attempts (concretely: a two-attempt run whose
executions both return zero-row dataframes records `df = [[], []]`). -/
theorem C10_df_entries :
    (∀ env m (st : LoopState) d, env.exec st.nExec = some d →
      (iteration env m st).ret.df = st.ret.df ++ [d]) ∧
    (∀ env m (st : LoopState), env.exec st.nExec = none →
      (iteration env m st).ret.df = st.ret.df) ∧
    (∀ env m, (query env m).df.length ≤ (query env m).sql.length) ∧
    (query envEmptyLoop 2).df = [[], []] := by
  refine ⟨?_, ?_, query_df_le_sql, by decide⟩
  · intro env m st d hx
    exact (iteration_df env m st).2 d hx
  · intro env m st hx
    exact (iteration_df env m st).1 hx

/-- C10 (witness): the per-attempt append/no-append behaviour and the
length bound at concrete runs. -/
theorem C10_witness :
    (iteration envEmptyLoop 3 stW).ret.df = stW.ret.df ++ [[]] ∧
    (iteration envScripted 3 stW).ret.df = stW.ret.df ∧
    (query envEmptyLoop 2).df.length ≤ (query envEmptyLoop 2).sql.length :=
  ⟨C10_df_entries.1 envEmptyLoop 3 stW [] rfl,
   C10_df_entries.2.1 envScripted 3 stW rfl,
   C10_df_entries.2.2.1 envEmptyLoop 2⟩
